import Mathlib

/-!
Verification development for the markiavelli Markov-chain sentence generator.

The definitions below are a shallow embedding of the Python sources:
  * `src/classes/chain.py` — class `MarkovChain` (the primary implementation),
  * `src/chain.py`         — an older duplicate of `MarkovChain` whose
    generation loop differs (it ignores the `length_error` margin),
  * `src/content.py`       — class `Content` (`_extract_start_states`).

Modelling conventions:
  * Python tuples/lists of tokens are Lean `List String`.
  * A `dict`/`defaultdict(list)` is an association list in insertion order;
    `appendEntry` mirrors `transitions[prefix].append(suffix)` including the
    defaultdict behaviour of creating a missing key.
  * `collections.Counter` values are association lists `List (key × Nat)`;
    `Counter.elements()` is `elementsOf`.
  * `random.choice(seq)` is modelled by an oracle index `pick`; on an empty
    sequence Python raises `IndexError`, which the spec calls `EmptyModel`.
  * Python exceptions that a method can raise become an `Except` result;
    code paths that cannot raise stay pure.
  * The unbounded `while True` walk of `generate_sentence` takes an explicit
    `fuel` bound; exhausting fuel is reported as its own stop reason and is
    never confused with the loop's two real exits.
-/

set_option maxRecDepth 4000

namespace Markiavelli

abbrev Token := String

abbrev PrefixKey := List Token

/-- A transition table: prefix tuple ↦ ordered list of suffix tokens
(repetition encodes frequency), in insertion order, mirroring
`defaultdict(list)` in `MarkovChain._read_from_content`. -/
abbrev TransitionTable := List (PrefixKey × List Token)

/-- The corpus-facing interface `MarkovChain` consumes from a content object:
`get_ngram_blocks()` (a list of blocks, each a list of ngram tuples, as
produced by `Content._extract_ngrams`) and `get_start_states()` (a Counter of
start tuples, as produced by `Content._extract_start_states`).  The data is
computed once when the content object is built and is never re-extracted. -/
structure ContentData where
  ngram_blocks : List (List (List Token))
  start_states : List (PrefixKey × Nat)
deriving DecidableEq

/-- First-match lookup in an association list (Python `dict` access for a
present key; `None` when absent). -/
def lookupTable (t : TransitionTable) (p : PrefixKey) : Option (List Token) :=
  match t with
  | [] => none
  | e :: rest => if e.1 = p then some e.2 else lookupTable rest p

/-- `transitions[k].append(v)` on a `defaultdict(list)`: append to the entry
for `k`, creating `k ↦ [v]` at the end when `k` is absent. -/
def appendEntry : TransitionTable → PrefixKey → Token → TransitionTable
  | [], k, v => [(k, [v])]
  | e :: rest, k, v =>
    if e.1 = k then (e.1, e.2 ++ [v]) :: rest else e :: appendEntry rest k v

/-- One iteration of the inner loop of `MarkovChain._read_from_content`:
`prefix = ngram[:self.n]; suffix = ngram[-1];
transitions[prefix].append(suffix)`.  (`ngram[-1]` on an empty tuple would
raise in Python; ngrams are non-empty, the `""` default is never used.) -/
def addNgram (n : Nat) (t : TransitionTable) (g : List Token) : TransitionTable :=
  appendEntry t (g.take n) (g.getLastD "")

/-- All ngrams of all blocks of all content objects, in iteration order of the
three nested loops of `MarkovChain._read_from_content`. -/
def allNgrams (contents : List ContentData) : List (List Token) :=
  (contents.flatMap (fun c => c.ngram_blocks)).flatMap (fun b => b)

/-- `MarkovChain._read_from_content`: fold every ngram into a fresh
`defaultdict(list)`. -/
def read_from_content (contents : List ContentData) (n : Nat) : TransitionTable :=
  (allNgrams contents).foldl (addNgram n) []

/-- The body of the per-key loop of `MarkovChain._analyze_context`:
`counter = Counter(lst)`, multiply the count of each suffix that is a context
keyword by `weight`, then `list(counter.elements())`.  `l.dedup` enumerates
the distinct suffixes (`Counter` keys); `elements()` repeats each by its
(possibly inflated) count. -/
def weightSuffixes (keywords : List Token) (weight : Nat) (l : List Token) : List Token :=
  l.dedup.flatMap
    (fun s => List.replicate (if s ∈ keywords then weight * l.count s else l.count s) s)

/-- `MarkovChain._analyze_context(weight=2)`: with no context keywords the base
table is returned as is (the source returns `self.transitions` itself);
otherwise the source deep-copies the base table and re-weights every suffix
list, leaving the base untouched. -/
def analyze_context (t : TransitionTable) (keywords : List Token) (weight : Nat) :
    TransitionTable :=
  if keywords.isEmpty then t
  else t.map (fun e => (e.1, weightSuffixes keywords weight e.2))

/-- The inner loop of `MarkovChain._get_start_states`:
`for word in state: if word in self.context_keywords: start_states[state] *= weight`.
The count is multiplied once per token position whose token is a keyword. -/
def weightStartState (keywords : List Token) (weight : Nat) (state : PrefixKey)
    (c : Nat) : Nat :=
  state.foldl (fun acc word => if word ∈ keywords then acc * weight else acc) c

/-- Count held by a Counter association list for a key (0 when absent). -/
def countLookup (b : List (PrefixKey × Nat)) (k : PrefixKey) : Nat :=
  match b with
  | [] => 0
  | e :: rest => if e.1 = k then e.2 else countLookup rest k

/-- `Counter.__add__`: keys of the left operand (counts summed with the right),
then the keys only present in the right operand.  All counts occurring here
are positive, so the dropping of non-positive entries never fires. -/
def counterAdd (a b : List (PrefixKey × Nat)) : List (PrefixKey × Nat) :=
  a.map (fun e => (e.1, e.2 + countLookup b e.1))
    ++ b.filter (fun e => ¬ a.any (fun e2 => e2.1 = e.1))

/-- `start_states = Counter(); for c in self.content_objs: start_states += c.get_start_states()`. -/
def mergedStarts (contents : List ContentData) : List (PrefixKey × Nat) :=
  contents.foldl (fun acc c => counterAdd acc c.start_states) []

/-- `Counter.elements()`: each key repeated by its count, in key order. -/
def elementsOf (l : List (PrefixKey × Nat)) : List PrefixKey :=
  l.flatMap (fun e => List.replicate e.2 e.1)

/-- `MarkovChain._get_start_states(weight=2)`: merge the content Counters,
apply the per-token keyword weighting when context keywords exist, and return
the flattened element list. -/
def get_start_states (contents : List ContentData) (keywords : List Token)
    (weight : Nat) : List PrefixKey :=
  let merged := mergedStarts contents
  let weighted :=
    if keywords.isEmpty then merged
    else merged.map (fun e => (e.1, weightStartState keywords weight e.1 e.2))
  elementsOf weighted

/-- The mutable state of a `MarkovChain` object.  In the source
`weighted_transitions` aliases `transitions` exactly when `context_keywords`
is empty (then `_analyze_context` returns `self.transitions` itself); the
embedding keeps two fields and re-synchronises them wherever the source
mutates the shared dict. -/
structure MCState where
  content_objs : List ContentData
  context_keywords : List Token
  n : Nat
  transitions : TransitionTable
  weighted_transitions : TransitionTable
  start_states : List PrefixKey
deriving DecidableEq

/-- `MarkovChain.__init__(content, n=2, context=[])`: note there is no
validation of `n` anywhere in the constructor. -/
def MarkovChain.init (contents : List ContentData) (n : Nat) (context : List Token) :
    MCState :=
  let t := read_from_content contents n
  { content_objs := contents
    context_keywords := context
    n := n
    transitions := t
    weighted_transitions := analyze_context t context 2
    start_states := get_start_states contents context 2 }

/-- `MarkovChain.update_ngram_size(n)`: sets `self.n` and recomputes the three
derived structures from the content objects (whose stored ngram blocks and
start-state Counters are NOT re-extracted — `Content.update_n` is never
called).  No validation of `n` is performed. -/
def MarkovChain.update_ngram_size (s : MCState) (n : Nat) : MCState :=
  let t := read_from_content s.content_objs n
  { s with
    n := n
    transitions := t
    weighted_transitions := analyze_context t s.context_keywords 2
    start_states := get_start_states s.content_objs s.context_keywords 2 }

/-- `MarkovChain.update_context(context)`: replaces the keywords and rebuilds
only the weighted derivatives from the unchanged base structures. -/
def MarkovChain.update_context (s : MCState) (context : List Token) : MCState :=
  { s with
    context_keywords := context
    weighted_transitions := analyze_context s.transitions context 2
    start_states := get_start_states s.content_objs context 2 }

/-- Errors observable from `MarkovChain` methods.  `invalidStart` and
`deadEnd` are the two `MarkovChainException` raise sites of the source;
`emptyModel` models the `IndexError` that `random.choice` raises on an empty
sequence in `_select_start_state` (the spec's `EmptyModel`).  No raise site
for an invalid order exists anywhere in the source. -/
inductive MCError where
  | invalidStart : MCError
  | deadEnd : PrefixKey → MCError
  | emptyModel : MCError
deriving DecidableEq

/-- How one `generate_sentence` walk stopped. -/
inductive StopReason where
  | ending : StopReason
  | deadEnd : StopReason
  | fuelOut : StopReason
deriving DecidableEq

instance {ε α : Type} [DecidableEq ε] [DecidableEq α] : DecidableEq (Except ε α) :=
  fun a b =>
  match a, b with
  | Except.error x, Except.error y =>
    if h : x = y then Decidable.isTrue (by rw [h])
    else Decidable.isFalse (by intro hh; cases hh; exact h rfl)
  | Except.ok x, Except.ok y =>
    if h : x = y then Decidable.isTrue (by rw [h])
    else Decidable.isFalse (by intro hh; cases hh; exact h rfl)
  | Except.error _, Except.ok _ => Decidable.isFalse (by intro hh; cases hh)
  | Except.ok _, Except.error _ => Decidable.isFalse (by intro hh; cases hh)

/-- Python `str.split()` (split on whitespace runs, no empty pieces);
`start.strip().split()` is the same function since `split()` already ignores
leading and trailing whitespace. -/
def pySplitAux : List Char → List Char → List String
  | [], acc => if acc.isEmpty then [] else [String.mk acc.reverse]
  | c :: cs, acc =>
    if c.isWhitespace then
      (if acc.isEmpty then pySplitAux cs [] else String.mk acc.reverse :: pySplitAux cs [])
    else pySplitAux cs (c :: acc)

/-- Python `s.split()` for a whole string. -/
def pySplit (s : String) : List String := pySplitAux s.data []

/-- Python `seq[-n:]`.  Caution: for `n = 0` the slice `seq[-0:]` is the whole
sequence, not the last zero elements. -/
def lastTokens (n : Nat) (l : List Token) : List Token :=
  if n = 0 then l else l.drop (l.length - n)

/-- `random.choice(seq)` for non-empty `seq`, driven by the oracle `pick`;
every element is reachable as `pick` varies. -/
def pyChoice (l : List Token) (pick : Nat) : Token :=
  l.getD (pick % l.length) ""

/-- `random.choice` over start states. -/
def pyChoiceState (l : List PrefixKey) (pick : Nat) : PrefixKey :=
  l.getD (pick % l.length) []

/-- `MarkovChain._select_start_state`: `random.choice(self.start_states)`,
which raises (`IndexError`, the spec's `EmptyModel`) when the list is empty. -/
def select_start_state (states : List PrefixKey) (pick : Nat) :
    Except MCError PrefixKey :=
  if states.isEmpty then Except.error MCError.emptyModel
  else Except.ok (pyChoiceState states pick)

/-- `MarkovChain._valid_start_state(start)`: an empty string is falsy, so a
start state is sampled; otherwise the override is split into tokens and
rejected with the "too short" `MarkovChainException` when it has fewer than
`n` tokens. -/
def MarkovChain.valid_start_state (s : MCState) (start : String) (pick : Nat) :
    Except MCError (List Token) :=
  if start = "" then select_start_state s.start_states pick
  else if (pySplit start).length < s.n then Except.error MCError.invalidStart
  else Except.ok (pySplit start)

/-- The protected abbreviations of `MarkovChain._is_ending`
(`"U.S.|U.N.|E.U.|F.B.I.|C.I.A.".split("|")` in the source). -/
def exceptions : List String := ["U.S.", "U.N.", "E.U.", "F.B.I.", "C.I.A."]

/-- `len(re.sub(r"[^A-Z]", "", w))`: the number of uppercase (A–Z) characters
of `w`. -/
def upperCount (t : String) : Nat :=
  (t.data.filter (fun c => decide ('A' ≤ c ∧ c ≤ 'Z'))).length

/-- `w[-1]` of a token, as an option (tokens are whitespace-delimited and
hence non-empty wherever the source indexes them). -/
def lastChar (t : String) : Option Char := t.data.getLast?

/-- `MarkovChain._is_ending(chain)`: decides whether `chain[-1]` may
terminate the sentence. -/
def is_ending (chain : List Token) : Bool :=
  let w := chain.getLastD ""
  if w ∈ exceptions then false
  else if lastChar w = some '?' ∨ lastChar w = some '!' then true
  else if 1 < upperCount w then true
  else if lastChar w = some '.' then true
  else false

/-- `MarkovChain._step(chain)`:
`prefix = tuple(chain[-self.n:])`; the guard
`if not self.weighted_transitions[prefix]` reads the `defaultdict`, which
INSERTS `prefix ↦ []` when the key is missing (and, when the context is
empty, `weighted_transitions` is the very same dict as `transitions`, so the
base table gains the entry too); an empty suffix list raises the dead-end
`MarkovChainException`, otherwise a suffix is chosen at random. -/
def MarkovChain.step (s : MCState) (chain : List Token) (pick : Nat) :
    MCState × Except MCError Token :=
  let pfx := lastTokens s.n chain
  match lookupTable s.weighted_transitions pfx with
  | some l =>
    if l.isEmpty then (s, Except.error (MCError.deadEnd pfx))
    else (s, Except.ok (pyChoice l pick))
  | none =>
    let wt := s.weighted_transitions ++ [(pfx, [])]
    ({ s with
        weighted_transitions := wt
        transitions := if s.context_keywords.isEmpty then wt else s.transitions },
      Except.error (MCError.deadEnd pfx))

/-- The `while True` loop of `MarkovChain.generate_sentence`
(`src/classes/chain.py`): try a step — a `MarkovChainException` (dead end)
breaks the loop; otherwise append the suffix and break once
`len(chain) > min_length - length_error and self._is_ending(chain)`. -/
def genLoop : Nat → MCState → List Token → List Nat → Int → Int →
    MCState × List Token × StopReason
  | 0, s, chain, _, _, _ => (s, chain, StopReason.fuelOut)
  | Nat.succ fuel, s, chain, picks, mL, lE =>
    match MarkovChain.step s chain (picks.headD 0) with
    | (s2, Except.error _) => (s2, chain, StopReason.deadEnd)
    | (s2, Except.ok tok) =>
      let chain2 := chain ++ [tok]
      if ((chain2.length : Int) > mL - lE) ∧ is_ending chain2 = true then
        (s2, chain2, StopReason.ending)
      else genLoop fuel s2 chain2 picks.tail mL lE

/-- `MarkovChain.generate_sentence(start='', min_length=25, length_error=5)`
of `src/classes/chain.py`.  The source returns `' '.join(chain)`; the
embedding returns the token list together with how the walk stopped, which
determines that string. -/
def MarkovChain.generate_sentence (fuel : Nat) (s : MCState) (start : String)
    (mL lE : Int) (startPick : Nat) (picks : List Nat) :
    MCState × Except MCError (List Token × StopReason) :=
  match MarkovChain.valid_start_state s start startPick with
  | Except.error e => (s, Except.error e)
  | Except.ok chain0 =>
    let r := genLoop fuel s chain0 picks mL lE
    (r.1, Except.ok (r.2.1, r.2.2))

/-- The `while True` loop of the older duplicate `src/chain.py`
`MarkovChain.generate_sentence(start='', min_length=20, length_error=5)`:
identical except that the break condition is
`len(chain) > min_length and self._is_ending(chain)` — the `length_error`
parameter is accepted but never used. -/
def genLoopOld : Nat → MCState → List Token → List Nat → Int → Int →
    MCState × List Token × StopReason
  | 0, s, chain, _, _, _ => (s, chain, StopReason.fuelOut)
  | Nat.succ fuel, s, chain, picks, mL, lE =>
    match MarkovChain.step s chain (picks.headD 0) with
    | (s2, Except.error _) => (s2, chain, StopReason.deadEnd)
    | (s2, Except.ok tok) =>
      let chain2 := chain ++ [tok]
      if ((chain2.length : Int) > mL) ∧ is_ending chain2 = true then
        (s2, chain2, StopReason.ending)
      else genLoopOld fuel s2 chain2 picks.tail mL lE

/-- `MarkovChain.generate_sentence` of the older duplicate `src/chain.py`. -/
def generate_sentence_old (fuel : Nat) (s : MCState) (start : String)
    (mL lE : Int) (startPick : Nat) (picks : List Nat) :
    MCState × Except MCError (List Token × StopReason) :=
  match MarkovChain.valid_start_state s start startPick with
  | Except.error e => (s, Except.error e)
  | Except.ok chain0 =>
    let r := genLoopOld fuel s chain0 picks mL lE
    (r.1, Except.ok (r.2.1, r.2.2))

/-- `collections.Counter(l)`: distinct elements with their multiplicities. -/
def toCounter (l : List PrefixKey) : List (PrefixKey × Nat) :=
  l.dedup.map (fun x => (x, l.count x))

/-- `Content._extract_start_states` (src/content.py), as a function of the
sentence lists that `nltk`'s sentence detector produced for each text block:
`starts = [tuple(s.split()[:self.n]) for s in sentences if len(s) >= self.n]`
— note the guard compares the CHARACTER length `len(s)` of the sentence
string with the token count `n` — then `Counter(start_states)`. -/
def extract_start_states (n : Nat) (sentenceBlocks : List (List String)) :
    List (PrefixKey × Nat) :=
  toCounter
    (sentenceBlocks.flatMap
      (fun sentences =>
        (sentences.filter (fun s => decide (n ≤ s.length))).map
          (fun s => (pySplit s).take n)))

/-- The invariant claimed for transition tables: every key has length `n`
and maps to a non-empty suffix list. -/
def tableInv (n : Nat) (t : TransitionTable) : Prop :=
  ∀ e, e ∈ t → e.1.length = n ∧ e.2 ≠ []

/-- Concrete corpus data for witnesses and counterexamples: one block holding
the single trigram `("a","b","c")` (order-2 extraction of a 3-word text) and
one start state. -/
def sampleContent : ContentData :=
  { ngram_blocks := [[["a", "b", "c"]]]
    start_states := [(["a", "b"], 1)] }

/-- Concrete chain state built from `sampleContent` with `n = 2`, no context. -/
def s3def : MCState := MarkovChain.init [sampleContent] 2 []

/-- Concrete content whose only start state repeats a keyword twice. -/
def contentFast : ContentData :=
  { ngram_blocks := []
    start_states := [(["fast", "fast"], 1)] }

/-- Concrete order-1 corpus `a. → b. → c. → d.` in which every token is an
ending token. -/
def contentDots : ContentData :=
  { ngram_blocks := [[["a.", "b."], ["b.", "c."], ["c.", "d."]]]
    start_states := [(["a."], 1)] }

/-- Concrete chain state built from `contentDots` with `n = 1`, no context. -/
def s7def : MCState := MarkovChain.init [contentDots] 1 []

/-- Concrete chain state over an empty corpus (no start states at all). -/
def sEmptyDef : MCState := MarkovChain.init [] 2 []

lemma count_flatMap_replicate {α : Type} [DecidableEq α] (g : α → Nat) :
    ∀ (ds : List α), ds.Nodup → ∀ a : α,
      (ds.flatMap (fun d => List.replicate (g d) d)).count a
        = if a ∈ ds then g a else 0 := by
  intro ds
  induction ds with
  | nil => intro _ a; simp
  | cons d rest ih =>
    intro hnd a
    rw [List.nodup_cons] at hnd
    rw [List.flatMap_cons, List.count_append, ih hnd.2 a]
    by_cases had : a = d
    · subst had
      simp [List.count_replicate, hnd.1]
    · simp [List.count_replicate, had, Ne.symm had]

lemma count_elementsOf_of_notMem :
    ∀ (l : List (PrefixKey × Nat)) (st : PrefixKey),
      st ∉ l.map Prod.fst → (elementsOf l).count st = 0 := by
  intro l
  induction l with
  | nil => intro st _; simp [elementsOf]
  | cons e rest ih =>
    intro st hst
    simp only [List.map_cons, List.mem_cons, not_or] at hst
    rw [elementsOf, List.flatMap_cons, List.count_append]
    rw [elementsOf] at ih
    rw [ih st hst.2, List.count_replicate]
    simp [Ne.symm hst.1]

lemma count_elementsOf :
    ∀ (l : List (PrefixKey × Nat)), (l.map Prod.fst).Nodup →
      ∀ (st : PrefixKey) (c : Nat), (st, c) ∈ l → (elementsOf l).count st = c := by
  intro l
  induction l with
  | nil => intro _ st c h; cases h
  | cons e rest ih =>
    intro hnd st c hmem
    rw [List.map_cons, List.nodup_cons] at hnd
    rw [elementsOf, List.flatMap_cons, List.count_append]
    rw [List.mem_cons] at hmem
    rcases hmem with heq | hmem
    · cases heq
      have h0 : (elementsOf rest).count st = 0 :=
        count_elementsOf_of_notMem rest st hnd.1
      rw [elementsOf] at h0
      rw [h0, List.count_replicate]
      simp
    · have hst : st ∈ rest.map Prod.fst := List.mem_map_of_mem Prod.fst hmem
      have hne : e.1 ≠ st := fun h => hnd.1 (h ▸ hst)
      have := ih hnd.2 st c hmem
      rw [elementsOf] at this
      rw [this, List.count_replicate]
      simp [hne]

lemma count_weightSuffixes (keywords : List Token) (w : Nat) (l : List Token)
    (a : Token) :
    (weightSuffixes keywords w l).count a
      = (if a ∈ keywords then w else 1) * l.count a := by
  rw [weightSuffixes,
    count_flatMap_replicate (fun s => if s ∈ keywords then w * l.count s else l.count s)
      l.dedup (List.nodup_dedup l) a]
  by_cases hal : a ∈ l
  · rw [if_pos (List.mem_dedup.2 hal)]
    by_cases hak : a ∈ keywords <;> simp [hak]
  · rw [if_neg (fun h => hal (List.mem_dedup.1 h))]
    rw [List.count_eq_zero.2 hal, Nat.mul_zero]

lemma weightSuffixes_ne_nil (keywords : List Token) (w : Nat) (l : List Token)
    (hw : 1 ≤ w) (hl : l ≠ []) : weightSuffixes keywords w l ≠ [] := by
  rcases List.exists_mem_of_ne_nil l hl with ⟨a, ha⟩
  have hc : 0 < l.count a := List.count_pos_iff.2 ha
  have : 0 < (weightSuffixes keywords w l).count a := by
    rw [count_weightSuffixes]
    by_cases hak : a ∈ keywords
    · simp only [if_pos hak]
      exact Nat.mul_pos hw hc
    · simpa [hak] using hc
  exact List.ne_nil_of_mem (List.count_pos_iff.1 this)

lemma weightStartState_eq (keywords : List Token) (w : Nat) :
    ∀ (st : PrefixKey) (c : Nat),
      weightStartState keywords w st c
        = c * w ^ (st.countP (fun tok => decide (tok ∈ keywords))) := by
  intro st
  induction st with
  | nil => intro c; simp [weightStartState]
  | cons h t ih =>
    intro c
    rw [weightStartState, List.foldl_cons]
    by_cases hk : h ∈ keywords
    · rw [if_pos hk]
      have := ih (c * w)
      rw [weightStartState] at this
      rw [this, List.countP_cons]
      simp [hk, pow_succ]
      ring
    · rw [if_neg hk]
      have := ih c
      rw [weightStartState] at this
      rw [this, List.countP_cons]
      simp [hk]

lemma lookupTable_map_values (f : List Token → List Token) :
    ∀ (t : TransitionTable) (p : PrefixKey),
      lookupTable (t.map (fun e => (e.1, f e.2))) p
        = Option.map f (lookupTable t p) := by
  intro t
  induction t with
  | nil => intro p; simp [lookupTable]
  | cons e rest ih =>
    intro p
    rw [List.map_cons, lookupTable, lookupTable]
    by_cases hp : e.1 = p
    · simp [hp]
    · simp only [hp, if_false]
      exact ih p

lemma mem_appendEntry_keyLen (n : Nat) :
    ∀ (t : TransitionTable) (k : PrefixKey) (v : Token),
      (∀ e, e ∈ t → e.1.length = n) → k.length = n →
      ∀ e, e ∈ appendEntry t k v → e.1.length = n := by
  intro t
  induction t with
  | nil =>
    intro k v _ hk e he
    rw [appendEntry] at he
    rcases List.mem_singleton.1 he with rfl
    exact hk
  | cons e0 rest ih =>
    intro k v ht hk e he
    rw [appendEntry] at he
    by_cases h0 : e0.1 = k
    · rw [if_pos h0] at he
      rcases List.mem_cons.1 he with rfl | hmem
      · exact ht e0 (List.mem_cons_self _ _)
      · exact ht e (List.mem_cons_of_mem e0 hmem)
    · rw [if_neg h0] at he
      rcases List.mem_cons.1 he with rfl | hmem
      · exact ht e (List.mem_cons_self _ _)
      · exact ih k v (fun e2 he2 => ht e2 (List.mem_cons_of_mem e0 he2)) hk e hmem

lemma mem_appendEntry_nonempty :
    ∀ (t : TransitionTable) (k : PrefixKey) (v : Token),
      (∀ e, e ∈ t → e.2 ≠ []) →
      ∀ e, e ∈ appendEntry t k v → e.2 ≠ [] := by
  intro t
  induction t with
  | nil =>
    intro k v _ e he
    rw [appendEntry] at he
    rcases List.mem_singleton.1 he with rfl
    simp
  | cons e0 rest ih =>
    intro k v ht e he
    rw [appendEntry] at he
    by_cases h0 : e0.1 = k
    · rw [if_pos h0] at he
      rcases List.mem_cons.1 he with rfl | hmem
      · simp
      · exact ht e (List.mem_cons_of_mem e0 hmem)
    · rw [if_neg h0] at he
      rcases List.mem_cons.1 he with rfl | hmem
      · exact ht e (List.mem_cons_self _ _)
      · exact ih k v (fun e2 he2 => ht e2 (List.mem_cons_of_mem e0 he2)) e hmem

lemma foldl_addNgram_keyLen (n : Nat) :
    ∀ (gs : List (List Token)) (t : TransitionTable),
      (∀ e, e ∈ t → e.1.length = n) → (∀ g, g ∈ gs → n ≤ g.length) →
      ∀ e, e ∈ gs.foldl (addNgram n) t → e.1.length = n := by
  intro gs
  induction gs with
  | nil => intro t ht _ e he; exact ht e he
  | cons g rest ih =>
    intro t ht hgs e he
    rw [List.foldl_cons] at he
    refine ih (addNgram n t g) ?_ (fun g2 hg2 => hgs g2 (List.mem_cons_of_mem g hg2)) e he
    have hk : (g.take n).length = n := by
      rw [List.length_take]
      exact Nat.min_eq_left (hgs g (List.mem_cons_self _ _))
    exact mem_appendEntry_keyLen n t (g.take n) (g.getLastD "") ht hk

lemma foldl_addNgram_nonempty (n : Nat) :
    ∀ (gs : List (List Token)) (t : TransitionTable),
      (∀ e, e ∈ t → e.2 ≠ []) →
      ∀ e, e ∈ gs.foldl (addNgram n) t → e.2 ≠ [] := by
  intro gs
  induction gs with
  | nil => intro t ht e he; exact ht e he
  | cons g rest ih =>
    intro t ht e he
    rw [List.foldl_cons] at he
    exact ih (addNgram n t g)
      (mem_appendEntry_nonempty t (g.take n) (g.getLastD "") ht) e he

lemma read_tableInv (contents : List ContentData) (n : Nat)
    (h : ∀ g, g ∈ allNgrams contents → n ≤ g.length) :
    tableInv n (read_from_content contents n) := by
  intro e he
  refine ⟨foldl_addNgram_keyLen n (allNgrams contents) [] (by simp) h e he, ?_⟩
  exact foldl_addNgram_nonempty n (allNgrams contents) [] (by simp) e he

lemma analyze_keyLen (t : TransitionTable) (keywords : List Token) (w n : Nat)
    (ht : ∀ e, e ∈ t → e.1.length = n) :
    ∀ e, e ∈ analyze_context t keywords w → e.1.length = n := by
  intro e he
  rw [analyze_context] at he
  by_cases hk : keywords.isEmpty
  · rw [if_pos hk] at he; exact ht e he
  · rw [if_neg hk] at he
    rcases List.mem_map.1 he with ⟨e0, he0, rfl⟩
    exact ht e0 he0

lemma analyze_tableInv (t : TransitionTable) (keywords : List Token) (w n : Nat)
    (hw : 1 ≤ w) (ht : tableInv n t) :
    tableInv n (analyze_context t keywords w) := by
  intro e he
  rw [analyze_context] at he
  by_cases hk : keywords.isEmpty
  · rw [if_pos hk] at he; exact ht e he
  · rw [if_neg hk] at he
    rcases List.mem_map.1 he with ⟨e0, he0, rfl⟩
    exact ⟨(ht e0 he0).1, weightSuffixes_ne_nil keywords w e0.2 hw (ht e0 he0).2⟩

lemma valid_start_state_error (s : MCState) (start : String) (pick : Nat)
    (e : MCError) (h : MarkovChain.valid_start_state s start pick = Except.error e) :
    e = MCError.invalidStart ∨ e = MCError.emptyModel := by
  rw [MarkovChain.valid_start_state] at h
  by_cases hs : start = ""
  · rw [if_pos hs, select_start_state] at h
    by_cases hemp : s.start_states.isEmpty
    · rw [if_pos hemp] at h
      cases h
      exact Or.inr rfl
    · rw [if_neg hemp] at h
      cases h
  · rw [if_neg hs] at h
    by_cases hlen : (pySplit start).length < s.n
    · rw [if_pos hlen] at h
      cases h
      exact Or.inl rfl
    · simp only [if_neg hlen] at h
      cases h

lemma genLoop_ending_spec (mL lE : Int) :
    ∀ (fuel : Nat) (s : MCState) (chain : List Token) (picks : List Nat)
      (s2 : MCState) (c : List Token),
      genLoop fuel s chain picks mL lE = (s2, c, StopReason.ending) →
      chain <+: c ∧ (((c.length : Int) > mL - lE) ∧ is_ending c = true) ∧
        ∀ k, chain.length < k → k < c.length →
          ¬ (((k : Int) > mL - lE) ∧ is_ending (c.take k) = true) := by
  intro fuel
  induction fuel with
  | zero =>
    intro s chain picks s2 c h
    simp [genLoop] at h
  | succ f ih =>
    intro s chain picks s2 c h
    rw [genLoop] at h
    rcases hstep : MarkovChain.step s chain (picks.headD 0) with ⟨s3, r⟩
    rw [hstep] at h
    cases r with
    | error err => simp at h
    | ok tok =>
      simp only at h
      by_cases hcond :
          (((chain ++ [tok]).length : Int) > mL - lE) ∧ is_ending (chain ++ [tok]) = true
      · rw [if_pos hcond] at h
        rcases h with ⟨rfl, rfl, rfl⟩ | h
        · refine ⟨List.prefix_append chain [tok], hcond, ?_⟩
          intro k hk1 hk2
          rw [List.length_append, List.length_singleton] at hk2
          omega
      · rw [if_neg hcond] at h
        rcases ih s3 (chain ++ [tok]) picks.tail s2 c h with ⟨hpre, hfin, hmin⟩
        refine ⟨(List.prefix_append chain [tok]).trans hpre, hfin, ?_⟩
        intro k hk1 hk2
        have hlen2 : (chain ++ [tok]).length = chain.length + 1 := by
          rw [List.length_append, List.length_singleton]
        by_cases hk : k = chain.length + 1
        · subst hk
          have htake : chain ++ [tok] = c.take (chain ++ [tok]).length :=
            List.prefix_iff_eq_take.1 hpre
          rw [hlen2] at htake
          intro hc
          rw [← htake] at hc
          exact hcond ⟨by rw [hlen2]; exact hc.1, hc.2⟩
        · exact hmin k (by omega) hk2

/-- C1 (suffix weighting exactness): for every prefix key present in the base
transition table, every keyword set and every integer weight `w ≥ 1`, the
weighted table produced by `_analyze_context` maps that prefix to a suffix
list in which every keyword suffix occurs exactly `w` times its base count
and every other suffix occurs exactly its base count.  The embedding is
purely functional, so the base table `t` referred to by the statement is by
construction unmodified (the source deep-copies before weighting and returns
the base itself only when no keywords are set). -/
theorem analyze_context_weight_exact :
    ∀ (t : TransitionTable) (keywords : List Token) (w : Nat), 1 ≤ w →
      ∀ (p : PrefixKey) (l : List Token), lookupTable t p = some l →
        ∃ l2, lookupTable (analyze_context t keywords w) p = some l2
          ∧ ∀ s : Token, l2.count s = (if s ∈ keywords then w else 1) * l.count s := by
  intro t keywords w _ p l hl
  rw [analyze_context]
  by_cases hk : keywords.isEmpty
  · rw [if_pos hk]
    refine ⟨l, hl, ?_⟩
    intro s
    have hke : keywords = [] := by simpa using hk
    subst hke
    simp
  · rw [if_neg hk]
    refine ⟨weightSuffixes keywords w l, ?_, fun s => count_weightSuffixes keywords w l s⟩
    rw [lookupTable_map_values (weightSuffixes keywords w) t p, hl]
    rfl

/-- Witness for C1: prefix `("a")` with base suffixes `x, y, x` and keyword
`x` at weight 2 gives `x` count 4 and `y` count 1. -/
theorem analyze_context_weight_exact_witness :
    ∃ l2, lookupTable (analyze_context [(["a"], ["x", "y", "x"])] ["x"] 2) ["a"]
        = some l2
      ∧ ∀ s : Token,
          l2.count s = (if s ∈ (["x"] : List Token) then 2 else 1)
            * (["x", "y", "x"] : List Token).count s :=
  analyze_context_weight_exact [(["a"], ["x", "y", "x"])] ["x"] 2 (by decide)
    ["a"] ["x", "y", "x"] (by decide)

/-- C2 counterexample: the start state `("fast","fast")` with base count 1 and
keyword set `{"fast"}` at weight 2 does NOT get weighted count `1 * 2`:
`_get_start_states` multiplies once per keyword token position, yielding 4. -/
theorem get_start_states_compound_weight_cex :
    (get_start_states [contentFast] ["fast"] 2).count ["fast", "fast"] ≠ 1 * 2 := by
  decide

/-- C2 as amended: the weighted count of a start state equals its base count
times `weight ^ k`, where `k` is the number of token positions of the tuple
whose token belongs to the keyword set (one multiplication per keyword
occurrence, not a single multiplication when any token matches). -/
theorem get_start_states_weight_pow :
    ∀ (contents : List ContentData) (keywords : List Token) (w : Nat)
      (st : PrefixKey) (c : Nat),
      ((mergedStarts contents).map Prod.fst).Nodup →
      (st, c) ∈ mergedStarts contents →
      (get_start_states contents keywords w).count st
        = c * w ^ (st.countP (fun tok => decide (tok ∈ keywords))) := by
  intro contents keywords w st c hnd hmem
  rw [get_start_states]
  by_cases hk : keywords.isEmpty
  · simp only [if_pos hk]
    rw [count_elementsOf (mergedStarts contents) hnd st c hmem]
    have hke : keywords = [] := by simpa using hk
    subst hke
    simp
  · simp only [if_neg hk]
    have hkeys : (((mergedStarts contents).map
          (fun e => (e.1, weightStartState keywords w e.1 e.2))).map Prod.fst)
        = (mergedStarts contents).map Prod.fst := by
      rw [List.map_map]
      rfl
    have hnd2 : (((mergedStarts contents).map
          (fun e => (e.1, weightStartState keywords w e.1 e.2))).map Prod.fst).Nodup := by
      rw [hkeys]; exact hnd
    have hmem2 : (st, weightStartState keywords w st c)
        ∈ (mergedStarts contents).map
            (fun e => (e.1, weightStartState keywords w e.1 e.2)) :=
      List.mem_map.2 ⟨(st, c), hmem, rfl⟩
    rw [count_elementsOf _ hnd2 st _ hmem2]
    exact weightStartState_eq keywords w st c

/-- Witness for C2 amended: `("fast","fast")` has two keyword positions, so
its weighted count is `1 * 2 ^ 2 = 4`. -/
theorem get_start_states_weight_pow_witness :
    (get_start_states [contentFast] ["fast"] 2).count ["fast", "fast"]
      = 1 * 2 ^ ((["fast", "fast"] : PrefixKey).countP
          (fun tok => decide (tok ∈ (["fast"] : List Token)))) :=
  get_start_states_weight_pow [contentFast] ["fast"] 2 ["fast", "fast"] 1
    (by decide) (by decide)

/-- C3 counterexample: a state reachable by construction plus one
`generate_sentence` call in which the tables contain the key `("b","c")`
mapped to an EMPTY suffix list — the dead-end guard
`if not self.weighted_transitions[prefix]` reads a `defaultdict` and thereby
inserts the missing key (into the base table too, which aliases the weighted
one when no context keywords are set). -/
theorem step_inserts_empty_entry_cex :
    lookupTable (MarkovChain.generate_sentence 5 s3def "a b" 25 5 0
        [0, 0, 0, 0, 0]).1.weighted_transitions ["b", "c"] = some []
    ∧ lookupTable (MarkovChain.generate_sentence 5 s3def "a b" 25 5 0
        [0, 0, 0, 0, 0]).1.transitions ["b", "c"] = some [] := by
  decide

/-- C3 as amended: for `n ≥ 1` and corpora whose ngrams are `(n+1)`-tuples,
every key of the base and weighted transition tables produced by
construction, `update_ngram_size`, or `update_context` has length exactly `n`
and maps to a non-empty suffix list (the invariant holds after every build
and rebuild; it is generation steps at absent prefixes that break it). -/
theorem tables_invariant_after_builds :
    ∀ (contents : List ContentData) (n : Nat) (ctx : List Token),
      1 ≤ n → (∀ g, g ∈ allNgrams contents → g.length = n + 1) →
      (tableInv n (MarkovChain.init contents n ctx).transitions
        ∧ tableInv n (MarkovChain.init contents n ctx).weighted_transitions)
      ∧ (∀ s : MCState, s.content_objs = contents →
          tableInv n (MarkovChain.update_ngram_size s n).transitions
            ∧ tableInv n (MarkovChain.update_ngram_size s n).weighted_transitions)
      ∧ (∀ (s : MCState) (ctx2 : List Token), tableInv n s.transitions →
          tableInv n (MarkovChain.update_context s ctx2).transitions
            ∧ tableInv n (MarkovChain.update_context s ctx2).weighted_transitions) := by
  intro contents n ctx _ hg
  have hle : ∀ g, g ∈ allNgrams contents → n ≤ g.length := by
    intro g hgm
    rw [hg g hgm]
    omega
  have hbase : tableInv n (read_from_content contents n) := read_tableInv contents n hle
  refine ⟨⟨hbase, analyze_tableInv _ ctx 2 n (by omega) hbase⟩, ?_, ?_⟩
  · intro s hs
    constructor
    · show tableInv n (read_from_content s.content_objs n)
      rw [hs]
      exact hbase
    · show tableInv n
        (analyze_context (read_from_content s.content_objs n) s.context_keywords 2)
      rw [hs]
      exact analyze_tableInv _ _ 2 n (by omega) hbase
  · intro s ctx2 hts
    exact ⟨hts, analyze_tableInv _ _ 2 n (by omega) hts⟩

/-- Witness for C3 amended: the invariant holds concretely for the order-2
build from `sampleContent`. -/
theorem tables_invariant_after_builds_witness :
    tableInv 2 (MarkovChain.init [sampleContent] 2 []).transitions
      ∧ tableInv 2 (MarkovChain.init [sampleContent] 2 []).weighted_transitions :=
  (tables_invariant_after_builds [sampleContent] 2 [] (by decide) (by decide)).1

/-- C4 (EmptyModel and the error surface): selecting a start state from an
empty start-state list fails with the empty-model error (in the source, the
`IndexError` of `random.choice` on an empty sequence; no context keywords or
picks can avoid it); a `generate_sentence` call on a model without start
states surfaces exactly that error; and every error a `generate_sentence`
call can surface is `invalidStart` or `emptyModel` — the dead-end error is
caught inside the loop and never reaches the caller, and no invalid-order
error exists at all. -/
theorem generate_error_taxonomy :
    (∀ pick : Nat, select_start_state [] pick = Except.error MCError.emptyModel)
    ∧ (∀ (fuel : Nat) (s : MCState) (mL lE : Int) (sp : Nat) (picks : List Nat),
        s.start_states = [] →
        (MarkovChain.generate_sentence fuel s "" mL lE sp picks).2
          = Except.error MCError.emptyModel)
    ∧ (∀ (fuel : Nat) (s : MCState) (start : String) (mL lE : Int) (sp : Nat)
        (picks : List Nat) (e : MCError),
        (MarkovChain.generate_sentence fuel s start mL lE sp picks).2
          = Except.error e →
        e = MCError.invalidStart ∨ e = MCError.emptyModel) := by
  refine ⟨fun pick => rfl, ?_, ?_⟩
  · intro fuel s mL lE sp picks hss
    have hv : MarkovChain.valid_start_state s "" sp
        = Except.error MCError.emptyModel := by
      rw [MarkovChain.valid_start_state, if_pos rfl, select_start_state,
        if_pos (by rw [hss]; rfl)]
    simp [MarkovChain.generate_sentence, hv]
  · intro fuel s start mL lE sp picks e h
    cases hv : MarkovChain.valid_start_state s start sp with
    | error e2 =>
      simp only [MarkovChain.generate_sentence, hv] at h
      cases h
      exact valid_start_state_error s start sp e hv
    | ok chain0 =>
      simp [MarkovChain.generate_sentence, hv] at h

/-- Witness for C4: concrete empty start-state selection and a concrete
`generate_sentence` call over the empty corpus, both failing with the
empty-model error. -/
theorem generate_error_taxonomy_witness :
    select_start_state [] 0 = Except.error MCError.emptyModel
    ∧ (MarkovChain.generate_sentence 3 sEmptyDef "" 25 5 0 []).2
        = Except.error MCError.emptyModel :=
  ⟨generate_error_taxonomy.1 0,
    generate_error_taxonomy.2.1 3 sEmptyDef 25 5 0 [] (by decide)⟩

/-- C5 counterexample: a build call with `n = 0 < 1` does NOT fail with an
invalid-order error — no order validation exists anywhere in `__init__` or
`update_ngram_size` — it completes and produces a table keyed by the empty
tuple. -/
theorem init_order_zero_succeeds_cex :
    (MarkovChain.init [sampleContent] 0 []).transitions = [([], ["c"])]
    ∧ (MarkovChain.init [sampleContent] 0 []).n = 0 := by
  decide

/-- C5 as amended: build and order-update calls perform no validation of `n`;
every `n`, including `n < 1`, is accepted without any error (the embedding of
the constructor is total because the source has no raise site), and for
`n = 0` every prefix key of the built table is the empty tuple. -/
theorem init_order_zero_no_failure :
    ∀ (contents : List ContentData) (ctx : List Token),
      (MarkovChain.init contents 0 ctx).n = 0
      ∧ ∀ e, e ∈ (MarkovChain.init contents 0 ctx).transitions → e.1 = [] := by
  intro contents ctx
  refine ⟨rfl, ?_⟩
  intro e he
  have he2 : e ∈ read_from_content contents 0 := he
  have hinv := read_tableInv contents 0 (fun g _ => Nat.zero_le _) e he2
  exact List.length_eq_zero.1 hinv.1

/-- Witness for C5 amended: the order-0 build over `sampleContent`. -/
theorem init_order_zero_no_failure_witness :
    (MarkovChain.init [sampleContent] 0 []).n = 0
    ∧ ∀ e, e ∈ (MarkovChain.init [sampleContent] 0 []).transitions → e.1 = [] :=
  init_order_zero_no_failure [sampleContent] []

/-- C6 (generateSentence raises iff): a call with a non-empty start override
surfaces an error exactly when the override splits into fewer than `n`
tokens, and that error is the invalid-start error; with at least `n` tokens
no error reaches the caller — in particular a dead end during the walk is
caught inside the loop and only ends the walk early. -/
theorem generate_override_error_iff :
    ∀ (fuel : Nat) (s : MCState) (start : String) (mL lE : Int) (sp : Nat)
      (picks : List Nat), start ≠ "" →
      ((∃ e, (MarkovChain.generate_sentence fuel s start mL lE sp picks).2
          = Except.error e) ↔ (pySplit start).length < s.n)
      ∧ ((pySplit start).length < s.n →
          (MarkovChain.generate_sentence fuel s start mL lE sp picks).2
            = Except.error MCError.invalidStart) := by
  intro fuel s start mL lE sp picks hstart
  by_cases hlen : (pySplit start).length < s.n
  · have hv : MarkovChain.valid_start_state s start sp
        = Except.error MCError.invalidStart := by
      rw [MarkovChain.valid_start_state, if_neg hstart, if_pos hlen]
    refine ⟨⟨fun _ => hlen, fun _ => ⟨MCError.invalidStart, ?_⟩⟩, fun _ => ?_⟩
    · simp [MarkovChain.generate_sentence, hv]
    · simp [MarkovChain.generate_sentence, hv]
  · have hv : MarkovChain.valid_start_state s start sp
        = Except.ok (pySplit start) := by
      rw [MarkovChain.valid_start_state, if_neg hstart, if_neg hlen]
    refine ⟨⟨?_, fun h => absurd h hlen⟩, fun h => absurd h hlen⟩
    rintro ⟨e, he⟩
    simp [MarkovChain.generate_sentence, hv] at he

/-- Witness for C6: the override `"a"` against the order-2 model raises the
invalid-start error (1 token < 2). -/
theorem generate_override_error_iff_witness :
    ((∃ e, (MarkovChain.generate_sentence 3 s3def "a" 25 5 0 []).2
        = Except.error e) ↔ (pySplit "a").length < s3def.n)
    ∧ ((pySplit "a").length < s3def.n →
        (MarkovChain.generate_sentence 3 s3def "a" 25 5 0 []).2
          = Except.error MCError.invalidStart) :=
  generate_override_error_iff 3 s3def "a" 25 5 0 [] (by decide)

/-- C7 counterexample: an ending-terminated call of the duplicate
implementation in `src/chain.py` (whose loop tests
`len(chain) > min_length`, ignoring `length_error`) returns a chain of
length 4 although the claimed stopping condition — length exceeds
`min_length - length_error = 1` and the last token is an ending — already
held at the first step (length 2): the walk did not stop at the first
qualifying step. -/
theorem old_generate_ignores_margin_cex :
    (generate_sentence_old 9 s7def "a." 3 2 0 [0, 0, 0, 0, 0, 0, 0, 0, 0]).2
      = Except.ok (["a.", "b.", "c.", "d."], StopReason.ending)
    ∧ (((2 : Int) > 3 - 2)
        ∧ is_ending ((["a.", "b.", "c.", "d."] : List Token).take 2) = true)
    ∧ (["a.", "b.", "c.", "d."] : List Token).length ≠ 2 := by
  decide

/-- C7 as amended, proved for `src/classes/chain.py`: whenever
`generate_sentence` terminates via the ending condition, the returned chain
length strictly exceeds `min_length - length_error`, its last token is an
ending, and no earlier step of the walk already satisfied both conditions —
the walk stops at the first qualifying step. -/
theorem generate_ending_stops_first :
    ∀ (fuel : Nat) (s : MCState) (start : String) (mL lE : Int) (sp : Nat)
      (picks : List Nat) (c ch : List Token),
      MarkovChain.valid_start_state s start sp = Except.ok ch →
      (MarkovChain.generate_sentence fuel s start mL lE sp picks).2
        = Except.ok (c, StopReason.ending) →
      (((c.length : Int) > mL - lE) ∧ is_ending c = true)
      ∧ ∀ k, ch.length < k → k < c.length →
          ¬ (((k : Int) > mL - lE) ∧ is_ending (c.take k) = true) := by
  intro fuel s start mL lE sp picks c ch hv h
  simp only [MarkovChain.generate_sentence, hv] at h
  rw [Except.ok.injEq, Prod.mk.injEq] at h
  obtain ⟨hc, hr⟩ := h
  have hloop : genLoop fuel s ch picks mL lE
      = ((genLoop fuel s ch picks mL lE).1, c, StopReason.ending) := by
    rw [← hc, ← hr]
  rcases genLoop_ending_spec mL lE fuel s ch picks _ c hloop with ⟨_, hfin, hmin⟩
  exact ⟨hfin, hmin⟩

/-- Witness for C7 amended: the same order-1 corpus, where the primary
implementation stops at the first qualifying step, returning
`["a.", "b."]`. -/
theorem generate_ending_stops_first_witness :
    ((((["a.", "b."] : List Token).length : Int) > 3 - 2
        ∧ is_ending ["a.", "b."] = true)
    ∧ ∀ k, (["a."] : List Token).length < k →
        k < (["a.", "b."] : List Token).length →
        ¬ (((k : Int) > 3 - 2)
            ∧ is_ending ((["a.", "b."] : List Token).take k) = true)) :=
  generate_ending_stops_first 9 s7def "a." 3 2 0 [0, 0, 0, 0, 0, 0, 0, 0, 0]
    ["a.", "b."] ["a."] (by decide) (by decide)

/-- C8 (isEnding decision procedure): a chain whose last token is `t` is an
ending exactly when `t` is none of the five protected abbreviations and
either ends in `?` or `!`, or contains more than one uppercase letter, or
ends in `.`; in particular each protected abbreviation is never an ending
even though it ends in `.`. -/
theorem is_ending_iff_claim :
    (∀ (pre : List Token) (t : Token),
      is_ending (pre ++ [t]) = true ↔
        (t ∉ exceptions ∧ (lastChar t = some '?' ∨ lastChar t = some '!'
          ∨ 1 < upperCount t ∨ lastChar t = some '.')))
    ∧ is_ending ["U.S."] = false ∧ is_ending ["U.N."] = false
    ∧ is_ending ["E.U."] = false ∧ is_ending ["F.B.I."] = false
    ∧ is_ending ["C.I.A."] = false := by
  refine ⟨?_, by decide, by decide, by decide, by decide, by decide⟩
  intro pre t
  have hlast : (pre ++ [t]).getLastD "" = t := by
    simp [List.getLastD_concat]
  rw [is_ending]
  simp only [hlast]
  by_cases h1 : t ∈ exceptions
  · simp [h1]
  · simp only [if_neg h1]
    by_cases h2 : lastChar t = some '?' ∨ lastChar t = some '!'
    · simp only [if_pos h2]
      tauto
    · simp only [if_neg h2]
      by_cases h3 : 1 < upperCount t
      · simp only [if_pos h3]
        tauto
      · simp only [if_neg h3]
        by_cases h4 : lastChar t = some '.'
        · simp only [if_pos h4]
          tauto
        · simp only [if_neg h4]
          constructor
          · intro hfalse
            cases hfalse
          · intro hcl
            exfalso
            tauto

/-- C9 counterexample: the content object stores trigram blocks extracted for
the old order 2; after `update_ngram_size(4)` the rebuilt table still
contains the key `("a","b","c")`, a tuple of 3 ≠ 4 tokens, because
`update_ngram_size` re-reads the stored blocks and never re-extracts them at
the new order. -/
theorem update_order_stale_ngrams_cex :
    lookupTable (MarkovChain.update_ngram_size s3def 4).transitions
        ["a", "b", "c"] = some ["c"]
    ∧ (["a", "b", "c"] : PrefixKey).length ≠ 4 := by
  decide

/-- C9 as amended: `update_ngram_size(n)` rebuilds the three structures from
the content objects' STORED ngram blocks and start-state counters (they are
not re-extracted at the new order); each rebuilt key is `ngram[:n]`, so keys
have length exactly `n` precisely when every stored ngram has at least `n`
tokens — in particular whenever the stored blocks hold `(n+1)`-tuples. -/
theorem update_order_keys_length_of_le :
    ∀ (s : MCState) (n2 : Nat),
      (∀ g, g ∈ allNgrams s.content_objs → n2 ≤ g.length) →
      (MarkovChain.update_ngram_size s n2).n = n2
      ∧ (∀ e, e ∈ (MarkovChain.update_ngram_size s n2).transitions →
          e.1.length = n2)
      ∧ (∀ e, e ∈ (MarkovChain.update_ngram_size s n2).weighted_transitions →
          e.1.length = n2) := by
  intro s n2 hg
  refine ⟨rfl, ?_, ?_⟩
  · intro e he
    have he2 : e ∈ read_from_content s.content_objs n2 := he
    exact (read_tableInv s.content_objs n2 hg e he2).1
  · intro e he
    have he2 : e ∈ analyze_context (read_from_content s.content_objs n2)
        s.context_keywords 2 := he
    exact analyze_keyLen (read_from_content s.content_objs n2) s.context_keywords 2 n2
      (fun e2 he3 => (read_tableInv s.content_objs n2 hg e2 he3).1) e he2

/-- Witness for C9 amended: updating the order of the `sampleContent` model
to 3 (each stored trigram has 3 ≥ 3 tokens) yields keys of length 3. -/
theorem update_order_keys_length_of_le_witness :
    (MarkovChain.update_ngram_size s3def 3).n = 3
    ∧ (∀ e, e ∈ (MarkovChain.update_ngram_size s3def 3).transitions →
        e.1.length = 3)
    ∧ (∀ e, e ∈ (MarkovChain.update_ngram_size s3def 3).weighted_transitions →
        e.1.length = 3) :=
  update_order_keys_length_of_le s3def 3 (by decide)

/-- C10 (code bug evaluation): with `n = 3`, the detected sentence
`"Go now!"` has 7 ≥ 3 CHARACTERS, so the guard `len(s) >= self.n` of
`Content._extract_start_states` admits it, and the produced start state
`("Go","now!")` has only 2 < 3 tokens — contradicting the claim that no
start state with fewer than `n` tokens is ever included. -/
theorem extract_start_states_short_sentence :
    extract_start_states 3 [["Go now!"]] = [(["Go", "now!"], 1)]
    ∧ (["Go", "now!"] : PrefixKey).length < 3 := by
  decide

end Markiavelli
